import Mathlib

/-!
Shallow embedding of the `get_wikipedia_info` crate (files `works.rs`,
`composers.rs`) of the classical-music repository, together with theorems
settling the specification claims about it.

Strings are modelled by Lean `String`, manipulated through their character
lists.  Rust's byte-index slicing (`find`, `&s[i..]`) always cuts at
character boundaries in the functions modelled here, so character-level
slicing yields the same string contents.  The regex character classes
`\d`, `\s`, `\w` and the case-mapping `to_lowercase` are modelled by their
ASCII semantics (`Char.isDigit`, `Char.isWhitespace`,
alphanumeric-or-underscore, `Char.toLower`), which agree with the Rust
behaviour on all ASCII input.
-/

namespace CM

/-- Substring test: does `needle` occur contiguously inside the second list?
Models Rust `str::contains` with a literal pattern. -/
def containsSub (needle : List Char) : List Char → Bool
  | [] => needle.isPrefixOf []
  | c :: t => needle.isPrefixOf (c :: t) || containsSub needle t

/-- `strContains s pat`: Rust `s.contains(pat)`. -/
def strContains (s pat : String) : Bool :=
  containsSub pat.toList s.toList

/-- Rust `str::to_lowercase` (ASCII model). -/
def lowerStr (s : String) : String :=
  String.mk (s.toList.map Char.toLower)

/-- `startsWithL pat l`: the character list `l` starts with the pattern string. -/
def startsWithL (pat : String) (l : List Char) : Bool :=
  pat.toList.isPrefixOf l

/-- Rust `str::trim` on a character list (ASCII whitespace model). -/
def trimChars (l : List Char) : List Char :=
  ((l.dropWhile Char.isWhitespace).reverse.dropWhile Char.isWhitespace).reverse

/-- Rust `str::trim`. -/
def strTrim (s : String) : String :=
  String.mk (trimChars s.toList)

/-- Numeric value of a list of decimal digits. -/
def digitsVal (l : List Char) : Nat :=
  l.foldl (fun n c => n * 10 + (c.toNat - '0'.toNat)) 0

/-- Rust `str::parse::<i32>()`: optional sign, then one or more decimal
digits, rejecting the empty string and values outside the `i32` range. -/
def parseI32 (l : List Char) : Option Int :=
  let (sign, digits) : Int × List Char :=
    match l with
    | '+' :: t => (1, t)
    | '-' :: t => (-1, t)
    | t => (1, t)
  if digits.isEmpty || !digits.all Char.isDigit then none
  else
    let v : Int := sign * (digitsVal digits : Int)
    if v < -2147483648 || 2147483647 < v then none else some v

/-! ## composers.rs: data model -/

/-- `struct ParsedYears` (composers.rs:17-23). -/
structure ParsedYears where
  birth_year : Option Int
  death_year : Option Int
  approximate : Bool
  flourished : Bool
deriving DecidableEq, Repr

/-- `enum QualityOfYearInfo` (composers.rs:25-31). -/
inductive QualityOfYearInfo where
  | Exact
  | Approximate
  | Flourished
  | AliveToday
deriving DecidableEq, Repr

/-- `struct Composer` (composers.rs:45-56). -/
structure Composer where
  url : String
  full_name : String
  list_of_compositions_url : String
  birth_year : Option Int
  death_year : Option Int
  years_qualifier : QualityOfYearInfo
deriving DecidableEq, Repr

/-! ## composers.rs: the year/date parser

`parse_year_range` (composers.rs:116-142) matches the regex
`(?i)(\d{3,4})\s*[-–]\s*(\d{3,4})` and, failing that, `(?i)(\d{3,4})`.
The scanner below reproduces the regex crate's leftmost-first semantics:
match attempts start at each position in order, and the greedy `\d{3,4}`
tries four digits before three.  Since the hyphen class and the digit
class contain no whitespace, the greedy `\s*` never needs to backtrack and
is modelled by dropping the maximal whitespace run. -/

/-- Four leading decimal digits, if present. -/
def digits4 : List Char → Option (List Char × List Char)
  | a :: b :: c :: d :: r =>
    if a.isDigit && b.isDigit && c.isDigit && d.isDigit then some ([a, b, c, d], r) else none
  | _ => none

/-- Three leading decimal digits, if present. -/
def digits3 : List Char → Option (List Char × List Char)
  | a :: b :: c :: r =>
    if a.isDigit && b.isDigit && c.isDigit then some ([a, b, c], r) else none
  | _ => none

/-- Attempt `(\d{3,4})\s*[-–]\s*(\d{3,4})` anchored at the head of the list,
returning the two captured digit groups. -/
def rangeAt (s : List Char) : Option (List Char × List Char) :=
  let cont := fun (p : List Char × List Char) =>
    let r₂ := p.2.dropWhile Char.isWhitespace
    match r₂ with
    | c :: r₃ =>
      if c = '-' ∨ c = '–' then
        let r₄ := r₃.dropWhile Char.isWhitespace
        ((digits4 r₄).or (digits3 r₄)).map (fun q => (p.1, q.1))
      else none
    | [] => none
  ((digits4 s).bind cont).or ((digits3 s).bind cont)

/-- Leftmost match of the range pattern. -/
def findRange : List Char → Option (List Char × List Char)
  | [] => rangeAt []
  | c :: t =>
    match rangeAt (c :: t) with
    | some r => some r
    | none => findRange t

/-- Leftmost match of `(\d{3,4})`, greedy. -/
def findSingle : List Char → Option (List Char)
  | [] => ((digits4 []).or (digits3 [])).map Prod.fst
  | c :: t =>
    match ((digits4 (c :: t)).or (digits3 (c :: t))).map Prod.fst with
    | some r => some r
    | none => findSingle t

/-- `parse_year_range` (composers.rs:116-142): range match first, then a
single year; each captured group goes through `parse::<i32>()` and a
failure aborts the attempt (`.ok()?`). -/
def parse_year_range (s : List Char) (approximate flourished : Bool) : Option ParsedYears :=
  match findRange s with
  | some (d₁, d₂) => do
    let birth ← parseI32 d₁
    let death ← parseI32 d₂
    some ⟨some birth, some death, approximate, flourished⟩
  | none =>
    match findSingle s with
    | some d => do
      let birth ← parseI32 d
      some ⟨some birth, none, approximate, flourished⟩
    | none => none

/-- The slicing part of `extract_years_from_parentheses`
(composers.rs:144-177): the text strictly between the first `'('` and the
first `')'` that follows it; `none` when either delimiter is missing. -/
def parenContent (text : String) : Option String :=
  let (_, rest) := text.toList.span (fun c => !(c == '('))
  match rest with
  | [] => none
  | _ :: r =>
    let (content, rest₂) := r.span (fun c => !(c == ')'))
    match rest₂ with
    | [] => none
    | _ => some (String.mk content)

/-- Trim and lowercase, as applied to the parenthesised slice
(composers.rs:148-151). -/
def normalizeYears (years : String) : List Char :=
  (trimChars years.toList).map Char.toLower

/-- The classification of the normalized parenthesised text
(composers.rs:153-170): `c.`/`c ` → approximate, `fl.`/`fl ` → flourished,
`born ` → single exact year, otherwise a plain range-or-single attempt. -/
def parseParenYears (years : String) : Option ParsedYears :=
  let n := normalizeYears years
  if startsWithL "c." n || startsWithL "c " n then
    parse_year_range n true false
  else if startsWithL "fl." n || startsWithL "fl " n then
    parse_year_range n false true
  else if startsWithL "born " n then
    (parseI32 (trimChars (n.drop 5))).map (fun y => ⟨some y, none, false, false⟩)
  else
    parse_year_range n false false

/-- `extract_years_from_parentheses` (composers.rs:144-177). -/
def extract_years_from_parentheses (text : String) : Option ParsedYears :=
  (parenContent text).bind parseParenYears

/-! ## composers.rs: list-page parsing

The HTML document structure and text collection are the external
capability the spec places out of scope; a `<li>` element is modelled by
the data the source reads from it: its anchors (with `href`, optional
`title` attribute, and text content) and its collected text. -/

/-- An `<a>` element as read by the source: `href` attribute, optional
`title` attribute, text content. -/
structure Anchor where
  href : String
  titleAttr : Option String
  text : String
deriving DecidableEq, Repr

/-- A `<li>` element: its anchors in document order and its collected text. -/
structure LiElement where
  anchors : List Anchor
  text : String
deriving DecidableEq, Repr

/-- The selector `a[href^="/wiki"][title]` (composers.rs:184). -/
def anchorMatches (a : Anchor) : Bool :=
  startsWithL "/wiki" a.href.toList && a.titleAttr.isSome

/-- `format!("/wiki/List_of_compositions_by_{}", title).replace(" ", "_")`
(composers.rs:250-252). -/
def mkListOfCompositionsUrl (title : String) : String :=
  String.mk (("/wiki/List_of_compositions_by_" ++ title).toList.map
    (fun c => if c = ' ' then '_' else c))

/-- The qualifier cascade (composers.rs:240-248). -/
def qualifierOf (yi : ParsedYears) : QualityOfYearInfo :=
  if yi.approximate then .Approximate
  else if yi.flourished then .Flourished
  else if yi.death_year = none then .AliveToday
  else .Exact

/-- The per-`<li>` body of the `filter_map` in `read_parse`
(composers.rs:186-281): first selector-matching anchor, title attribute
must equal the anchor text, then a `Composer` is built from the parsed
years or from the no-year fallback. -/
def parseLi (li : LiElement) : Option Composer :=
  match (li.anchors.filter anchorMatches).head? with
  | none => none
  | some a =>
    match a.titleAttr with
    | none => none
    | some title =>
      if a.text = title then
        match extract_years_from_parentheses li.text with
        | some yi =>
          some { url := a.href
                 full_name := title
                 list_of_compositions_url := mkListOfCompositionsUrl title
                 birth_year := yi.birth_year
                 death_year := yi.death_year
                 years_qualifier := qualifierOf yi }
        | none =>
          some { url := a.href
                 full_name := title
                 list_of_compositions_url := mkListOfCompositionsUrl title
                 birth_year := none
                 death_year := none
                 years_qualifier := .AliveToday }
      else none

/-- `read_parse` (composers.rs:179-287) restricted to its pure core: the
document's `<li>` elements mapped through the `filter_map` body. -/
def read_parse (lis : List LiElement) : List Composer :=
  lis.filterMap parseLi

/-! ## works.rs: data model -/

/-- `struct RawCompositionData` (works.rs:13-24). -/
structure RawCompositionData where
  composer_name : String
  composer_url : String
  source_url : String
  table_index : Nat
  row_index : Nat
  headers : List String
  cell_data : List String
  cell_links : List (Option String)
  raw_html_snippet : String
deriving DecidableEq, Repr

/-- `struct Composition` (works.rs:26-42).  `additional_info` is a
`HashMap<String, String>`, modelled extensionally as its lookup function. -/
structure Composition where
  composer_name : String
  composer_url : String
  source_url : String
  title : String
  work_url : Option String
  year : Option String
  key : Option String
  opus : Option String
  genre : Option String
  catalog_number : Option String
  instrumentation : Option String
  duration : Option String
  additional_info : String → Option String
  raw_data : RawCompositionData

/-! ## works.rs: URL relevance classification -/

/-- The positive indicator vocabulary (works.rs:163-203). -/
def compositionIndicators : List String :=
  ["symphony", "sonata", "concerto", "quartet", "quintet", "trio",
   "prelude", "fugue", "etude", "nocturne", "waltz", "mazurka",
   "overture", "suite", "variation", "fantasia", "rhapsody", "mass",
   "requiem", "cantata", "oratorio", "opera", "song", "lied", "chanson",
   "aria", "duet", "movement", "piece", "work", "composition", "op.",
   "opus", "no.", "number", "k.", "bwv", "hob.", "woo"]

/-- `is_likely_composition_url` (works.rs:159-208). -/
def is_likely_composition_url (url : String) : Bool :=
  let url_lower := lowerStr url
  compositionIndicators.any (fun indicator => strContains url_lower indicator)

/-- The negative indicator vocabulary (works.rs:214-240). -/
def nonCompositionIndicators : List String :=
  ["category:", "file:", "template:", "user:", "talk:", "wikipedia:",
   "portal:", "help:", "special:", "list_of", "discography", "biography",
   "chronology", "timeline", "genre", "style", "period", "era",
   "instrument", "orchestra", "ensemble", "conservatory", "music_school",
   "university", "college"]

/-- `is_likely_non_composition_url` (works.rs:210-245). -/
def is_likely_non_composition_url (url : String) : Bool :=
  let url_lower := lowerStr url
  nonCompositionIndicators.any (fun indicator => strContains url_lower indicator)

/-- Relative-link resolution used throughout works.rs
(e.g. works.rs:106-110): a `/wiki/`-rooted href is prefixed with the base
URL, anything else passes through. -/
def resolveHref (base_url href : String) : String :=
  if startsWithL "/wiki/" href.toList then base_url ++ href else href

/-- A table cell as read by the source: collected text, anchors, raw html. -/
structure HtmlCell where
  text : String
  anchors : List Anchor
  html : String
deriving DecidableEq, Repr

/-- The anchors of a cell matching the selector `a[href^="/wiki"]`
(works.rs:257). -/
def selWiki (c : HtmlCell) : List Anchor :=
  c.anchors.filter (fun a => startsWithL "/wiki" a.href.toList)

/-- `determine_source_url` (works.rs:90-157): first cell's first link if it
passes the positive test; else the first positively matching link in row
order; else the first link not matching the negative test; else the page. -/
def determine_source_url (cells : List HtmlCell) (page_url base_url : String) : String :=
  let strat1 : Option String :=
    match cells.head? with
    | none => none
    | some first_cell =>
      match (selWiki first_cell).head? with
      | none => none
      | some a =>
        let full_url := resolveHref base_url a.href
        if is_likely_composition_url full_url then some full_url else none
  match strat1 with
  | some u => u
  | none =>
    let all_resolved := ((cells.map selWiki).flatten).map (fun a => resolveHref base_url a.href)
    match all_resolved.find? is_likely_composition_url with
    | some u => u
    | none =>
      match all_resolved.find? (fun u => !is_likely_non_composition_url u) with
      | some u => u
      | none => page_url

/-! ## works.rs: raw table harvesting -/

/-- A table row: its header (`th`) cells and data (`td`) cells. -/
structure HtmlRow where
  header_cells : List HtmlCell
  data_cells : List HtmlCell
deriving DecidableEq, Repr

/-- A table: its rows in document order. -/
structure HtmlTable where
  rows : List HtmlRow
deriving DecidableEq, Repr

/-- First link of a cell under the `a[href^="/wiki"]` selector, resolved to
absolute form (works.rs:300-315). -/
def cellLink (base_url : String) (c : HtmlCell) : Option String :=
  ((selWiki c).head?).map (fun a => resolveHref base_url a.href)

/-- The per-row step of the data-row loop in `extract_raw_table_data`
(works.rs:288-343): rows without data cells are skipped and consume no row
index; otherwise one `RawCompositionData` is appended. -/
def harvestRowStep (composer_name composer_url page_url base_url : String)
    (table_index : Nat) (headers : List String)
    (acc : List RawCompositionData × Nat) (row : HtmlRow) :
    List RawCompositionData × Nat :=
  let cells := row.data_cells
  if cells.isEmpty then acc
  else
    let raw : RawCompositionData :=
      { composer_name := composer_name
        composer_url := composer_url
        source_url := determine_source_url cells page_url base_url
        table_index := table_index
        row_index := acc.2
        headers := headers
        cell_data := cells.map (fun c => strTrim c.text)
        cell_links := cells.map (cellLink base_url)
        raw_html_snippet := "<tr>" ++ String.join (cells.map (fun c => c.html)) ++ "</tr>" }
    (acc.1 ++ [raw], acc.2 + 1)

/-- `extract_raw_table_data` (works.rs:247-346): headers from the first row
with header cells, generic `column_i` names otherwise, then one record per
non-empty data row. -/
def extract_raw_table_data (table : HtmlTable)
    (composer_name composer_url page_url : String) (table_index : Nat) :
    List RawCompositionData :=
  let base_url := "https://en.wikipedia.org"
  let headers : List String :=
    match table.rows.find? (fun row => !row.header_cells.isEmpty) with
    | some row => row.header_cells.map (fun c => strTrim c.text)
    | none =>
      let max_cols := (table.rows.map (fun row => row.data_cells.length)).foldr max 0
      (List.range max_cols).map (fun i => "column_" ++ toString i)
  (table.rows.foldl
    (harvestRowStep composer_name composer_url page_url base_url table_index headers)
    ([], 0)).1

/-! ## works.rs: the field canonicalizer -/

/-- The eight canonical field names of `FieldCanonicalizer::categorize_header`
(works.rs:380-422). -/
inductive Field where
  | title
  | year
  | key
  | opus
  | genre
  | catalog_number
  | instrumentation
  | duration
deriving DecidableEq, Repr

/-- The fixed order in which `categorize_header` tests the pattern groups. -/
def allFields : List Field :=
  [.title, .year, .key, .opus, .genre, .catalog_number, .instrumentation, .duration]

/-- Header keywords for each group (works.rs:361-378).  Each pattern is an
unanchored case-insensitive alternation of literals, so `is_match` is
containment of one of the literals; a trailing `\.?` (as in `op\.?`,
`k\.?`, `hob\.?`, `cat\.?`) never constrains an unanchored search and
reduces to containment of the bare stem. -/
def titleKeywords : List String := ["title", "work", "composition", "piece", "name"]

def yearKeywords : List String := ["year", "date", "composed", "written", "created"]

def keyKeywords : List String := ["key", "tonality"]

def opusKeywords : List String := ["opus", "op", "work number", "woo", "bwv", "k", "hob"]

def genreKeywords : List String := ["genre", "type", "form", "category"]

def catalogKeywords : List String := ["catalog", "catalogue", "cat", "thematic", "index"]

def instrumentationKeywords : List String := ["instrumentation", "scoring", "forces", "ensemble", "for"]

def durationKeywords : List String := ["duration", "length", "time", "minutes", "mins"]

/-- `categorize_header` (works.rs:380-422): lowercase the header, then test
the eight groups in fixed priority order, first match wins. -/
def categorize_header (header : String) : Option Field :=
  let header_lower := lowerStr header
  if titleKeywords.any (fun kw => strContains header_lower kw) then some .title
  else if yearKeywords.any (fun kw => strContains header_lower kw) then some .year
  else if keyKeywords.any (fun kw => strContains header_lower kw) then some .key
  else if opusKeywords.any (fun kw => strContains header_lower kw) then some .opus
  else if genreKeywords.any (fun kw => strContains header_lower kw) then some .genre
  else if catalogKeywords.any (fun kw => strContains header_lower kw) then some .catalog_number
  else if instrumentationKeywords.any (fun kw => strContains header_lower kw) then some .instrumentation
  else if durationKeywords.any (fun kw => strContains header_lower kw) then some .duration
  else none

/-- Is the previous character a regex word character (`\b` test, ASCII
model)?  `none` stands for the start of the text. -/
def prevIsWord : Option Char → Bool
  | none => false
  | some c => c.isAlphanum || c = '_'

/-- Does the remaining text start with a non-word character (or end)? -/
def nextNotWord : List Char → Bool
  | [] => true
  | c :: _ => !(c.isAlphanum || c = '_')

/-- Generic leftmost-first regex scan: try the anchored matcher at every
position in order, tracking the previous character for `\b` tests. -/
def scanFirst (m : Option Char → List Char → Option String) :
    Option Char → List Char → Option String
  | prev, [] => m prev []
  | prev, c :: t =>
    match m prev (c :: t) with
    | some r => some r
    | none => scanFirst m (some c) t

/-- Anchored matcher for `\b(1[5-9]\d{2}|20[0-2]\d)\b`
(`extract_year_from_text`, works.rs:424-427).  Both alternatives span four
digit characters, so the matched text is those four characters. -/
def yearAt (prev : Option Char) (s : List Char) : Option String :=
  if prevIsWord prev then none
  else
    match s with
    | c₁ :: c₂ :: c₃ :: c₄ :: rest =>
      if ((c₁ = '1' ∧ '5' ≤ c₂ ∧ c₂ ≤ '9' ∧ c₃.isDigit ∧ c₄.isDigit) ∨
          (c₁ = '2' ∧ c₂ = '0' ∧ '0' ≤ c₃ ∧ c₃ ≤ '2' ∧ c₄.isDigit)) ∧
         nextNotWord rest = true then
        some (String.mk [c₁, c₂, c₃, c₄])
      else none
    | _ => none

/-- `FieldCanonicalizer::extract_year_from_text` (works.rs:424-427). -/
def extract_year_from_text (text : String) : Option String :=
  scanFirst yearAt none text.toList

/-- First literal from `lits` that is a prefix of `s`, with the rest.  The
literal sets used below are mutually exclusive at any one position. -/
def tryLits (lits : List String) (s : List Char) : Option (List Char × List Char) :=
  lits.findSome? (fun lit =>
    if lit.toList.isPrefixOf s then some (lit.toList, s.drop lit.toList.length) else none)

/-- Anchored matcher for
`\b([A-G](?:\s*(?:flat|sharp|♭|♯))?\s*(?:major|minor|Major|Minor))\b`
(`extract_key_from_text`, works.rs:429-434).  The optional accidental
group is tried with-then-without, per greedy preference; each `\s*` is
followed by literals starting with non-whitespace, so maximal munch is
exact. -/
def keyAt (prev : Option Char) (s : List Char) : Option String :=
  if prevIsWord prev then none
  else
    match s with
    | c :: rest =>
      if 'A' ≤ c ∧ c ≤ 'G' then
        let withAcc : Option (List Char × List Char) :=
          let ws := rest.takeWhile Char.isWhitespace
          (tryLits ["flat", "sharp", "♭", "♯"] (rest.drop ws.length)).map
            (fun p => (ws ++ p.1, p.2))
        let alts : List (List Char × List Char) :=
          match withAcc with
          | some p => [p, ([], rest)]
          | none => [([], rest)]
        alts.findSome? (fun alt =>
          let ws₂ := alt.2.takeWhile Char.isWhitespace
          match tryLits ["major", "minor", "Major", "Minor"] (alt.2.drop ws₂.length) with
          | some q =>
            if nextNotWord q.2 then some (String.mk (c :: (alt.1 ++ ws₂ ++ q.1))) else none
          | none => none)
      else none
    | [] => none

/-- `FieldCanonicalizer::extract_key_from_text` (works.rs:429-434). -/
def extract_key_from_text (text : String) : Option String :=
  scanFirst keyAt none text.toList

/-- Anchored matcher for `\b(?:Op\.|Opus|op\.)\s*(\d+(?:\s*[a-z])?)\b`
returning capture group 1 (`extract_opus_from_text`, works.rs:436-442).
`\d+` is greedy; any shorter digit run is followed by a digit, which fails
both the optional `[a-z]` suffix and the final `\b`, so only the maximal
run can complete a match. -/
def opusAt (prev : Option Char) (s : List Char) : Option String :=
  if prevIsWord prev then none
  else
    match tryLits ["Op.", "Opus", "op."] s with
    | none => none
    | some p =>
      let r₁ := p.2.dropWhile Char.isWhitespace
      let digits := r₁.takeWhile Char.isDigit
      if digits.isEmpty then none
      else
        let r₂ := r₁.drop digits.length
        let withSuffix : Option String :=
          let ws := r₂.takeWhile Char.isWhitespace
          match r₂.drop ws.length with
          | c :: r₃ =>
            if 'a' ≤ c ∧ c ≤ 'z' ∧ nextNotWord r₃ = true then
              some (String.mk (digits ++ ws ++ [c]))
            else none
          | [] => none
        match withSuffix with
        | some cap => some cap
        | none => if nextNotWord r₂ then some (String.mk digits) else none

/-- `FieldCanonicalizer::extract_opus_from_text` (works.rs:436-442). -/
def extract_opus_from_text (text : String) : Option String :=
  scanFirst opusAt none text.toList

/-! ## works.rs: `canonicalize_raw_data`

The extraction loop (works.rs:477-542) iterates over a
`HashMap<&str, Vec<usize>>` whose iteration order is arbitrary.  Each
arm of the `match` reads and writes exactly the composition field(s)
named by the entry's key (the title arm also sets `work_url`), so the
state threaded through the loop is modelled as a map from `Field` to the
value stored so far: `none` for an unset field, and for a set field the
stored string together with the work-URL recorded alongside a title.
Claim C4's theorem shows the result does not depend on the iteration
order, justifying evaluating the map's entries in a fixed order. -/

/-- Loop state of the extraction loop: what has been stored per field. -/
def PState : Type := Field → Option (String × Option String)

/-- Point update of the loop state. -/
def updF (st : PState) (f : Field) (v : Option (String × Option String)) : PState :=
  fun g => if g = f then v else st g

/-- The value the arm for field `f` would store for a cell, if any
(works.rs:484-539): title requires a non-empty cell and records the
aligned link; year/key/opus prefer their extractor and fall back to the
raw non-empty cell; the remaining fields store the raw non-empty cell. -/
def candidate (f : Field) (cell : String) (link : Option String) :
    Option (String × Option String) :=
  match f with
  | .title => if cell ≠ "" then some (cell, link) else none
  | .year =>
    match extract_year_from_text cell with
    | some y => some (y, none)
    | none => if cell ≠ "" then some (cell, none) else none
  | .key =>
    match extract_key_from_text cell with
    | some k => some (k, none)
    | none => if cell ≠ "" then some (cell, none) else none
  | .opus =>
    match extract_opus_from_text cell with
    | some o => some (o, none)
    | none => if cell ≠ "" then some (cell, none) else none
  | .genre => if cell ≠ "" then some (cell, none) else none
  | .catalog_number => if cell ≠ "" then some (cell, none) else none
  | .instrumentation => if cell ≠ "" then some (cell, none) else none
  | .duration => if cell ≠ "" then some (cell, none) else none

/-- `cell_links.get(idx).and_then(|l| l.as_ref())` (works.rs:482): the
aligned link, absent when out of bounds or empty. -/
def cellLinkAt (r : RawCompositionData) (idx : Nat) : Option String :=
  (r.cell_links[idx]?).join

/-- One iteration of the inner `for &idx in &indices` loop
(works.rs:479-541): guarded by `idx < cell_data.len()`, first match wins
(a field already set is left alone). -/
def stepIdx (r : RawCompositionData) (f : Field) (st : PState) (idx : Nat) : PState :=
  match r.cell_data[idx]? with
  | none => st
  | some cell =>
    if st f = none then
      match candidate f cell (cellLinkAt r idx) with
      | some v => updF st f (some v)
      | none => st
    else st

/-- One iteration of the outer `for (field, indices) in field_mappings`
loop (works.rs:478). -/
def applyEntry (r : RawCompositionData) (e : Field × List Nat) (st : PState) : PState :=
  e.2.foldl (stepIdx r e.1) st

/-- The whole extraction loop, for a given entry order. -/
def runEntries (r : RawCompositionData) (entries : List (Field × List Nat)) : PState :=
  entries.foldl (fun st e => applyEntry r e st) (fun _ => none)

/-- Indices (from position `i`) of the headers classified into field `f`:
the `Vec<usize>` built per key by the header loop (works.rs:466-475),
which pushes indices in ascending order. -/
def colsAux (f : Field) : List String → Nat → List Nat
  | [], _ => []
  | h :: t, i =>
    if categorize_header h = some f then i :: colsAux f t (i + 1)
    else colsAux f t (i + 1)

/-- The index vector stored under key `f` in `field_mappings`. -/
def fieldCols (r : RawCompositionData) (f : Field) : List Nat :=
  colsAux f r.headers 0

/-- The entry set of `field_mappings` (works.rs:466-475): one entry per
field with at least one classified header.  The hash map's iteration
order is arbitrary; the fixed `allFields` order used here is harmless by
the order-independence theorem for claim C4. -/
def canonFieldMappings (r : RawCompositionData) : List (Field × List Nat) :=
  allFields.filterMap (fun f =>
    if (fieldCols r f).isEmpty then none else some (f, fieldCols r f))

/-- The title fallback scan (works.rs:544-559): first non-empty cell whose
aligned link is present, returning the cell text and that link. -/
def fallbackAux : List String → List (Option String) → Option (String × Option String)
  | [], _ => none
  | c :: ct, links =>
    if c ≠ "" ∧ (links.head?.join).isSome then some (c, links.head?.join)
    else fallbackAux ct links.tail

/-- The unmapped-field retention loop (works.rs:561-573): headers zipped
with cells, unclassified headers with non-empty cells inserted into the
`additional_info` hash map; a later insertion under the same key
overwrites an earlier one. -/
def addInfoStep (m : String → Option String) (p : String × String) :
    String → Option String :=
  if categorize_header p.1 = none ∧ p.2 ≠ "" then
    fun k => if k = p.1 then some p.2 else m k
  else m

def additionalInfo (r : RawCompositionData) : String → Option String :=
  (r.headers.zip r.cell_data).foldl addInfoStep (fun _ => none)

/-- Assembly of the `Composition` from the loop state (works.rs:448-463,
544-575): carried-through identity fields, title/work URL with the
fallback scan, the typed fields, the unmapped mapping, and the raw record. -/
def canonicalizeFrom (r : RawCompositionData) (st : PState) : Composition :=
  let tw : String × Option String :=
    match st Field.title with
    | some p => p
    | none => ("", none)
  let tw : String × Option String :=
    if tw.1 = "" then
      match fallbackAux r.cell_data r.cell_links with
      | some p => p
      | none => tw
    else tw
  { composer_name := r.composer_name
    composer_url := r.composer_url
    source_url := r.source_url
    title := tw.1
    work_url := tw.2
    year := (st Field.year).map Prod.fst
    key := (st Field.key).map Prod.fst
    opus := (st Field.opus).map Prod.fst
    genre := (st Field.genre).map Prod.fst
    catalog_number := (st Field.catalog_number).map Prod.fst
    instrumentation := (st Field.instrumentation).map Prod.fst
    duration := (st Field.duration).map Prod.fst
    additional_info := additionalInfo r
    raw_data := r }

/-- `canonicalize_raw_data` (works.rs:445-576). -/
def canonicalize_raw_data (r : RawCompositionData) : Composition :=
  canonicalizeFrom r (runEntries r (canonFieldMappings r))

/-! ## works.rs: the live run and the replay interface -/

/-- The output gate applied by `get_works` before persisting a composition
(works.rs:647): `!title.is_empty() && title.len() > 2`, where Rust
`String::len` is the UTF-8 byte length. -/
def liveGate (c : Composition) : Bool :=
  !c.title.isEmpty && decide (2 < c.title.utf8ByteSize)

/-- Stage 2 of `get_works` (works.rs:642-654) as a function of the raw
records gathered in stage 1: canonicalize each record and keep those
passing the title gate, in order.  (The bounded channel and writer task
preserve arrival order and are the spec's out-of-scope persistence
mechanics.) -/
def liveRun (rs : List RawCompositionData) : List Composition :=
  (rs.map canonicalize_raw_data).filter liveGate

/-- `reprocess_raw_data` (works.rs:668-687) as a function of the records
on the raw file (each written line deserializes back to the record that
produced it): canonicalize every line and keep those with a non-empty
title. -/
def reprocess_raw_data (rs : List RawCompositionData) : List Composition :=
  (rs.map canonicalize_raw_data).filter (fun c => !c.title.isEmpty)

/-! ## Lemmas: slot view of the extraction loop -/

/-- Evolution of the single slot `f` under one index step. -/
def slotStep (r : RawCompositionData) (f : Field)
    (v : Option (String × Option String)) (idx : Nat) :
    Option (String × Option String) :=
  match r.cell_data[idx]? with
  | none => v
  | some cell =>
    if v = none then
      match candidate f cell (cellLinkAt r idx) with
      | some w => some w
      | none => v
    else v

/-- Evolution of the single slot `f` under an index list. -/
def slotFold (r : RawCompositionData) (f : Field) (l : List Nat)
    (v : Option (String × Option String)) : Option (String × Option String) :=
  l.foldl (slotStep r f) v

theorem stepIdx_slot (r : RawCompositionData) (f : Field) (st : PState) (idx : Nat) :
    stepIdx r f st idx = fun g => if g = f then slotStep r f (st f) idx else st g := by
  funext g
  by_cases hg : g = f
  all_goals
    unfold stepIdx slotStep
    cases r.cell_data[idx]? with
    | none => simp [hg]
    | some cell =>
      by_cases hv : st f = none
      · simp only [hv, if_pos]
        split <;> rename_i heq <;> simp [hg, hv, updF, heq]
      · simp [hg, hv]

theorem applyEntry_slot (r : RawCompositionData) (e : Field × List Nat) (st : PState) :
    applyEntry r e st = fun g => if g = e.1 then slotFold r e.1 e.2 (st e.1) else st g := by
  obtain ⟨f, l⟩ := e
  induction l generalizing st with
  | nil =>
    funext g
    show st g = if g = f then st f else st g
    by_cases hg : g = f <;> simp [hg]
  | cons i t ih =>
    funext g
    have h₁ : applyEntry r (f, i :: t) st = applyEntry r (f, t) (stepIdx r f st i) := rfl
    rw [h₁, ih]
    simp only [stepIdx_slot]
    by_cases hg : g = f <;> simp [hg, slotFold]

theorem applyEntry_comm (r : RawCompositionData) (e₁ e₂ : Field × List Nat)
    (h : e₁.1 ≠ e₂.1) (st : PState) :
    applyEntry r e₁ (applyEntry r e₂ st) = applyEntry r e₂ (applyEntry r e₁ st) := by
  funext g
  simp only [applyEntry_slot]
  by_cases h₁ : g = e₁.1 <;> by_cases h₂ : g = e₂.1 <;> simp_all

/-- Folding the entry list leaves slot `g` untouched when no entry has key `g`. -/
theorem foldEntries_notMem (r : RawCompositionData) :
    ∀ (entries : List (Field × List Nat)) (st : PState) (g : Field),
      (∀ e ∈ entries, e.1 ≠ g) →
      (entries.foldl (fun st e => applyEntry r e st) st) g = st g := by
  intro entries
  induction entries with
  | nil => intro st g _; rfl
  | cons e t ih =>
    intro st g hk
    have ht : ∀ e' ∈ t, e'.1 ≠ g := fun e' he' => hk e' (List.mem_cons_of_mem _ he')
    calc ((e :: t).foldl (fun st e => applyEntry r e st) st) g
        = (t.foldl (fun st e => applyEntry r e st) (applyEntry r e st)) g := rfl
      _ = (applyEntry r e st) g := ih _ g ht
      _ = st g := by
          rw [applyEntry_slot]
          show (if g = e.1 then slotFold r e.1 e.2 (st e.1) else st g) = st g
          exact if_neg (fun h => hk e (List.mem_cons_self _ _) h.symm)

/-- Slot characterization of the whole extraction loop, for entry lists
with pairwise distinct keys. -/
theorem foldEntries_slot (r : RawCompositionData) :
    ∀ (entries : List (Field × List Nat)) (st : PState) (g : Field),
      (entries.map Prod.fst).Nodup →
      (entries.foldl (fun st e => applyEntry r e st) st) g =
        (match entries.find? (fun e => decide (e.1 = g)) with
         | some e => slotFold r g e.2 (st g)
         | none => st g) := by
  intro entries
  induction entries with
  | nil => intro st g _; rfl
  | cons e t ih =>
    intro st g hnd
    rw [List.map_cons, List.nodup_cons] at hnd
    obtain ⟨hnotin, hndt⟩ := hnd
    by_cases hk : e.1 = g
    · have hfind : (e :: t).find? (fun e => decide (e.1 = g)) = some e :=
        List.find?_cons_of_pos _ (by simp [hk])
      rw [hfind]
      have ht : ∀ e' ∈ t, e'.1 ≠ g := by
        intro e' he' hc
        exact hnotin (hk ▸ hc ▸ List.mem_map_of_mem Prod.fst he')
      calc ((e :: t).foldl (fun st e => applyEntry r e st) st) g
          = (t.foldl (fun st e => applyEntry r e st) (applyEntry r e st)) g := rfl
        _ = (applyEntry r e st) g := foldEntries_notMem r t _ g ht
        _ = slotFold r g e.2 (st g) := by
            rw [applyEntry_slot]
            show (if g = e.1 then slotFold r e.1 e.2 (st e.1) else st g) = slotFold r g e.2 (st g)
            rw [if_pos hk.symm, hk]
    · have hfind : (e :: t).find? (fun e => decide (e.1 = g)) =
          t.find? (fun e => decide (e.1 = g)) :=
        List.find?_cons_of_neg _ (by simp [hk])
      rw [hfind]
      have hstep : (applyEntry r e st) g = st g := by
        rw [applyEntry_slot]
        show (if g = e.1 then slotFold r e.1 e.2 (st e.1) else st g) = st g
        exact if_neg (fun h => hk h.symm)
      calc ((e :: t).foldl (fun st e => applyEntry r e st) st) g
          = (t.foldl (fun st e => applyEntry r e st) (applyEntry r e st)) g := rfl
        _ = _ := by rw [ih _ g hndt, hstep]

/-- Order-independence of the extraction loop: folding any permutation of
an entry list with pairwise distinct keys yields the same state. -/
theorem foldEntries_perm (r : RawCompositionData) :
    ∀ {e₁ e₂ : List (Field × List Nat)}, e₁.Perm e₂ →
      (e₁.map Prod.fst).Nodup → ∀ st : PState,
      e₁.foldl (fun st e => applyEntry r e st) st =
        e₂.foldl (fun st e => applyEntry r e st) st := by
  intro e₁ e₂ hp
  induction hp with
  | nil => intro _ st; rfl
  | cons x _ ih =>
    intro hnd st
    rw [List.map_cons, List.nodup_cons] at hnd
    exact ih hnd.2 (applyEntry r x st)
  | swap x y l =>
    intro hnd st
    have hxy : y.1 ≠ x.1 := by
      rw [List.map_cons, List.nodup_cons] at hnd
      exact fun h => hnd.1 (h ▸ List.mem_map_of_mem Prod.fst (List.mem_cons_self _ _))
    show l.foldl _ (applyEntry r x (applyEntry r y st)) =
      l.foldl _ (applyEntry r y (applyEntry r x st))
    rw [applyEntry_comm r x y (fun h => hxy h.symm) st]
  | trans p₁ _ ih₁ ih₂ =>
    intro hnd st
    rw [ih₁ hnd st, ih₂ (((p₁.map Prod.fst).nodup_iff).mp hnd) st]

/-! ## Lemmas: the canonical entry list -/

theorem canonEntries_cons (cols : Field → List Nat) (f : Field) (t : List Field) :
    (f :: t).filterMap (fun f => if (cols f).isEmpty then none else some (f, cols f)) =
      (if (cols f).isEmpty then [] else [(f, cols f)]) ++
        t.filterMap (fun f => if (cols f).isEmpty then none else some (f, cols f)) := by
  by_cases h : (cols f).isEmpty
  · simp only [List.filterMap_cons]
    rw [if_pos h, if_pos h]
    rfl
  · simp only [List.filterMap_cons]
    rw [if_neg h, if_neg h]
    rfl

/-- The keys of the hash-map entry list form a sublist of the field order. -/
theorem filterMap_keys_sublist (cols : Field → List Nat) (L : List Field) :
    List.Sublist
      ((L.filterMap (fun f =>
        if (cols f).isEmpty then none else some (f, cols f))).map Prod.fst) L := by
  induction L with
  | nil => simp
  | cons f t ih =>
    by_cases h : (cols f).isEmpty
    · rw [canonEntries_cons cols f t, if_pos h, List.nil_append]
      exact ih.cons f
    · rw [canonEntries_cons cols f t, if_neg h, List.singleton_append, List.map_cons]
      exact ih.cons₂ f

theorem canonKeys_nodup (r : RawCompositionData) :
    ((canonFieldMappings r).map Prod.fst).Nodup :=
  (show allFields.Nodup by decide).sublist
    (filterMap_keys_sublist (fieldCols r) allFields)

theorem find?_filterMap_notMem (cols : Field → List Nat) :
    ∀ (L : List Field) (g : Field), g ∉ L →
      (L.filterMap (fun f =>
        if (cols f).isEmpty then none else some (f, cols f))).find?
          (fun e => decide (e.1 = g)) = none := by
  intro L
  induction L with
  | nil => intro g _; rfl
  | cons f t ih =>
    intro g hg
    have hfg : f ≠ g := fun h => hg (h ▸ List.mem_cons_self _ _)
    have hgt : g ∉ t := fun h => hg (List.mem_cons_of_mem _ h)
    by_cases h : (cols f).isEmpty
    · rw [canonEntries_cons cols f t, if_pos h, List.nil_append]
      exact ih g hgt
    · rw [canonEntries_cons cols f t, if_neg h, List.singleton_append]
      rw [List.find?_cons_of_neg _ (by simp [hfg])]
      exact ih g hgt

theorem find?_filterMap_key (cols : Field → List Nat) :
    ∀ (L : List Field) (g : Field), L.Nodup → g ∈ L →
      (L.filterMap (fun f =>
        if (cols f).isEmpty then none else some (f, cols f))).find?
          (fun e => decide (e.1 = g)) =
        (if (cols g).isEmpty then none else some (g, cols g)) := by
  intro L
  induction L with
  | nil => intro g _ hg; exact absurd hg (List.not_mem_nil g)
  | cons f t ih =>
    intro g hnd hg
    rw [List.nodup_cons] at hnd
    rcases List.mem_cons.mp hg with hfg | hgt
    · subst hfg
      by_cases h : (cols g).isEmpty
      · rw [canonEntries_cons cols g t, if_pos h, List.nil_append]
        rw [find?_filterMap_notMem cols t g hnd.1, if_pos h]
      · rw [canonEntries_cons cols g t, if_neg h, List.singleton_append]
        rw [List.find?_cons_of_pos _ (by simp), if_neg h]
    · have hfg : f ≠ g := fun h => hnd.1 (h ▸ hgt)
      by_cases h : (cols f).isEmpty
      · rw [canonEntries_cons cols f t, if_pos h, List.nil_append]
        exact ih g hnd.2 hgt
      · rw [canonEntries_cons cols f t, if_neg h, List.singleton_append]
        rw [List.find?_cons_of_neg _ (by simp [hfg])]
        exact ih g hnd.2 hgt

/-- Slot characterization of `canonicalize_raw_data`'s extraction loop:
slot `g` of the final state is the fold of `g`'s own column indices. -/
theorem runCanon_slot (r : RawCompositionData) (g : Field) :
    runEntries r (canonFieldMappings r) g = slotFold r g (fieldCols r g) none := by
  have hg : g ∈ allFields := by cases g <;> decide
  have hnd : allFields.Nodup := by decide
  rw [runEntries, foldEntries_slot r (canonFieldMappings r) _ g (canonKeys_nodup r)]
  rw [show canonFieldMappings r = allFields.filterMap (fun f =>
    if (fieldCols r f).isEmpty then none else some (f, fieldCols r f)) from rfl]
  rw [find?_filterMap_key (fieldCols r) allFields g hnd hg]
  by_cases h : (fieldCols r g).isEmpty
  · rw [if_pos h, List.isEmpty_iff.mp h]; rfl
  · rw [if_neg h]

/-! ## Lemmas: headers beyond the cell count -/

/-- The record with headers truncated to the cell count. -/
def truncHeaders (r : RawCompositionData) : RawCompositionData :=
  { r with headers := r.headers.take r.cell_data.length }

theorem colsAux_lower (f : Field) :
    ∀ (hs : List String) (i : Nat), ∀ j ∈ colsAux f hs i, i ≤ j := by
  intro hs
  induction hs with
  | nil => intro i j hj; exact absurd hj (List.not_mem_nil j)
  | cons h t ih =>
    intro i j hj
    unfold colsAux at hj
    by_cases hc : categorize_header h = some f
    · rw [if_pos hc] at hj
      rcases List.mem_cons.mp hj with rfl | hj'
      · exact Nat.le_refl j
      · exact Nat.le_of_succ_le (ih (i + 1) j hj')
    · rw [if_neg hc] at hj
      exact Nat.le_of_succ_le (ih (i + 1) j hj)

theorem colsAux_take (f : Field) :
    ∀ (hs : List String) (m i : Nat),
      colsAux f (hs.take m) i = (colsAux f hs i).filter (fun j => decide (j < i + m)) := by
  intro hs
  induction hs with
  | nil => intro m i; simp [colsAux, List.take_nil]
  | cons h t ih =>
    intro m i
    cases m with
    | zero =>
      rw [List.take_zero]
      have : ∀ j ∈ colsAux f (h :: t) i, ¬(decide (j < i + 0) = true) := by
        intro j hj
        simp only [Nat.add_zero, decide_eq_true_eq, Nat.not_lt]
        exact colsAux_lower f (h :: t) i j hj
      rw [List.filter_eq_nil_iff.mpr this]
      rfl
    | succ m =>
      rw [List.take_succ_cons]
      unfold colsAux
      by_cases hc : categorize_header h = some f
      · rw [if_pos hc, if_pos hc, ih m (i + 1)]
        rw [List.filter_cons_of_pos (by simp only [decide_eq_true_eq]; omega)]
        have harith : i + 1 + m = i + (m + 1) := by omega
        rw [harith]
      · rw [if_neg hc, if_neg hc, ih m (i + 1)]
        have harith : i + 1 + m = i + (m + 1) := by omega
        rw [harith]

theorem slotFold_filter (r : RawCompositionData) (f : Field) :
    ∀ (l : List Nat) (v : Option (String × Option String)),
      slotFold r f l v =
        slotFold r f (l.filter (fun j => decide (j < r.cell_data.length))) v := by
  intro l
  induction l with
  | nil => intro v; rfl
  | cons j t ih =>
    intro v
    by_cases hj : j < r.cell_data.length
    · rw [List.filter_cons_of_pos (by simp [hj])]
      show slotFold r f t (slotStep r f v j) = slotFold r f (List.filter _ t) (slotStep r f v j)
      exact ih (slotStep r f v j)
    · rw [List.filter_cons_of_neg (by simp [hj])]
      have hnone : r.cell_data[j]? = none :=
        List.getElem?_eq_none (Nat.le_of_not_lt hj)
      have hstep : slotStep r f v j = v := by
        unfold slotStep
        rw [hnone]
      show slotFold r f t (slotStep r f v j) = slotFold r f (List.filter _ t) v
      rw [hstep]
      exact ih v

theorem fieldCols_trunc (r : RawCompositionData) (f : Field) :
    fieldCols (truncHeaders r) f =
      (fieldCols r f).filter (fun j => decide (j < r.cell_data.length)) := by
  show colsAux f (r.headers.take r.cell_data.length) 0 = _
  rw [colsAux_take f r.headers r.cell_data.length 0]
  simp only [Nat.zero_add]
  rfl

theorem runCanon_trunc (r : RawCompositionData) (g : Field) :
    runEntries (truncHeaders r) (canonFieldMappings (truncHeaders r)) g =
      runEntries r (canonFieldMappings r) g := by
  rw [runCanon_slot, runCanon_slot]
  rw [fieldCols_trunc r g]
  have hslot : ∀ (l : List Nat) (v : Option (String × Option String)),
      slotFold (truncHeaders r) g l v = slotFold r g l v := fun l v => rfl
  rw [hslot]
  exact (slotFold_filter r g (fieldCols r g) none).symm

/-- Zipping truncates at the shorter list, so headers beyond the cell
count never reach the unmapped-retention loop. -/
theorem zip_take_left {α β : Type} :
    ∀ (l₁ : List α) (l₂ : List β), (l₁.take l₂.length).zip l₂ = l₁.zip l₂ := by
  intro l₁
  induction l₁ with
  | nil => intro l₂; simp
  | cons a t ih =>
    intro l₂
    cases l₂ with
    | nil => simp
    | cons b t₂ =>
      rw [List.length_cons, List.take_succ_cons, List.zip_cons_cons, List.zip_cons_cons, ih]

theorem additionalInfo_trunc (r : RawCompositionData) :
    additionalInfo (truncHeaders r) = additionalInfo r := by
  show ((r.headers.take r.cell_data.length).zip r.cell_data).foldl addInfoStep (fun _ => none) =
    (r.headers.zip r.cell_data).foldl addInfoStep (fun _ => none)
  have hlen : r.cell_data.length = r.cell_data.length := rfl
  rw [show r.cell_data.length = (r.cell_data).length from rfl, zip_take_left]

/-! ## Lemmas: last-insertion-wins for `additional_info` -/

/-- The columns the unmapped-retention loop inserts under key `h`:
unclassified header equal to `h` with a non-empty cell. -/
def unmappedPred (h : String) (p : String × String) : Bool :=
  decide (p.1 = h) && decide (categorize_header p.1 = none) && decide (p.2 ≠ "")

theorem addInfoStep_point (m : String → Option String) (p : String × String) (h : String) :
    (addInfoStep m p) h = (if unmappedPred h p then some p.2 else m h) := by
  unfold addInfoStep unmappedPred
  by_cases h2 : categorize_header p.1 = none <;> by_cases h3 : p.2 ≠ "" <;>
    by_cases h1 : p.1 = h
  all_goals
    first
      | (subst h1; simp [h2, h3])
      | (have h4 : ¬h = p.1 := fun hh => h1 hh.symm
         simp [h1, h2, h3, h4])

theorem addInfo_foldl (h : String) :
    ∀ (cols : List (String × String)) (m : String → Option String),
      (cols.foldl addInfoStep m) h =
        (match cols.reverse.find? (unmappedPred h) with
         | some p => some p.2
         | none => m h) := by
  intro cols
  induction cols with
  | nil => intro m; rfl
  | cons p t ih =>
    intro m
    rw [List.foldl_cons, ih (addInfoStep m p), List.reverse_cons, List.find?_append]
    cases hf : t.reverse.find? (unmappedPred h) with
    | some q => rfl
    | none =>
      show (addInfoStep m p) h =
        (match Option.or none ([p].find? (unmappedPred h)) with
         | some p => some p.2
         | none => m h)
      rw [addInfoStep_point]
      by_cases hp : unmappedPred h p = true
      · rw [List.find?_cons_of_pos _ hp, if_pos hp]
        rfl
      · rw [List.find?_cons_of_neg _ (by simpa using hp), if_neg hp]
        rfl

/-! ## Lemmas: harvester alignment invariant -/

theorem harvest_fold_aligned (cn cu pu bu : String) (ti : Nat) (hs : List String) :
    ∀ (rows : List HtmlRow) (acc : List RawCompositionData × Nat),
      (∀ x ∈ acc.1, x.cell_data.length = x.cell_links.length) →
      ∀ x ∈ (rows.foldl (harvestRowStep cn cu pu bu ti hs) acc).1,
        x.cell_data.length = x.cell_links.length := by
  intro rows
  induction rows with
  | nil => intro acc hacc x hx; exact hacc x hx
  | cons row t ih =>
    intro acc hacc x hx
    refine ih (harvestRowStep cn cu pu bu ti hs acc row) ?_ x hx
    intro y hy
    unfold harvestRowStep at hy
    by_cases hc : row.data_cells.isEmpty
    · rw [if_pos hc] at hy
      exact hacc y hy
    · rw [if_neg hc] at hy
      simp only [List.mem_append, List.mem_singleton] at hy
      rcases hy with hy | rfl
      · exact hacc y hy
      · simp [List.length_map]

/-! ## The claims -/

/-- Sample raw record whose canonical title is `"Op"`. -/
def opRaw : RawCompositionData :=
  { composer_name := "X", composer_url := "cu", source_url := "su",
    table_index := 0, row_index := 0,
    headers := ["Title"], cell_data := ["Op"], cell_links := [none],
    raw_html_snippet := "" }

/-- C1, counterexample.  One raw record canonicalizing to the title `"Op"`
(non-empty, byte length 2): the live run's gate (works.rs:647) discards
it, but the replay interface (works.rs:680) keeps it, so replay does not
reproduce the live run's persisted records. -/
theorem C1_replay_roundtrip_counterexample :
    (reprocess_raw_data [opRaw]).length = 1 ∧ (liveRun [opRaw]).length = 0 := by
  exact ⟨rfl, rfl⟩

/-- C1, amended claim: replaying a raw-records file re-runs the same
canonicalization but filters only on a non-empty title, so the live run's
persisted records are exactly the replay's records whose title exceeds
two bytes; replay additionally retains records with titles of byte length
1 or 2 that a live run would have discarded. -/
theorem C1_replay_superset_of_live (rs : List RawCompositionData) :
    liveRun rs =
      (reprocess_raw_data rs).filter (fun c => decide (2 < c.title.utf8ByteSize)) := by
  unfold liveRun reprocess_raw_data
  rw [List.filter_filter]
  apply List.filter_congr
  intro c _
  show (!c.title.isEmpty && decide (2 < c.title.utf8ByteSize)) =
    (decide (2 < c.title.utf8ByteSize) && !c.title.isEmpty)
  exact Bool.and_comm _ _

/-- A row cell whose only hyperlink goes to the Bach list-of-compositions
page. -/
def bachListCell : HtmlCell :=
  { text := "List of compositions",
    anchors := [{ href := "/wiki/List_of_compositions_by_Bach", titleAttr := none,
                  text := "List of compositions by Johann Sebastian Bach" }],
    html := "<td></td>" }

/-- C2, counterexample.  For a row whose only link is
`/wiki/List_of_compositions_by_Bach`, the classifier returns the resolved
link, not the fallback page URL: the resolved URL contains the positive
keyword `"composition"` (works.rs:194), so strategy 1 accepts it before
the negative-keyword `"list_of"` test (strategy 3) is ever consulted. -/
theorem C2_url_classifier_counterexample :
    determine_source_url [bachListCell]
        "https://en.wikipedia.org/wiki/Johann_Sebastian_Bach" "https://en.wikipedia.org" =
      "https://en.wikipedia.org/wiki/List_of_compositions_by_Bach" ∧
    "https://en.wikipedia.org/wiki/List_of_compositions_by_Bach" ≠
      "https://en.wikipedia.org/wiki/Johann_Sebastian_Bach" := by
  exact ⟨rfl, by decide⟩

/-- C2, amended claim: for every row whose cells contain, as their only
selector-matching hyperlink, a link to `/wiki/List_of_compositions_by_Bach`,
and for every fallback page URL, the classifier returns the resolved
absolute form of that link (its URL passes the positive-keyword test on
`"composition"`), never the fallback page URL; the negative-keyword
`"list_of"` test is not reached. -/
theorem C2_url_classifier_amended (cells : List HtmlCell) (page_url : String) (a : Anchor)
    (hlinks : (cells.map selWiki).flatten = [a])
    (href : a.href = "/wiki/List_of_compositions_by_Bach") :
    determine_source_url cells page_url "https://en.wikipedia.org" =
      "https://en.wikipedia.org/wiki/List_of_compositions_by_Bach" := by
  have hres : resolveHref "https://en.wikipedia.org" a.href =
      "https://en.wikipedia.org/wiki/List_of_compositions_by_Bach" := by
    rw [href]; rfl
  have hpos : is_likely_composition_url
      "https://en.wikipedia.org/wiki/List_of_compositions_by_Bach" = true := by decide
  cases cells with
  | nil => simp at hlinks
  | cons c rest =>
    have hsplit : selWiki c ++ (rest.map selWiki).flatten = [a] := by
      simpa using hlinks
    cases hc : selWiki c with
    | nil =>
      rw [hc, List.nil_append] at hsplit
      simp only [determine_source_url, List.head?_cons, hc, List.head?_nil]
      simp only [List.flatten_cons, hc, List.nil_append, hsplit, List.map_cons,
        List.map_nil, hres]
      rw [List.find?_cons_of_pos _ hpos]
    | cons b tb =>
      rw [hc, List.cons_append] at hsplit
      have hba : b = a := by injection hsplit
      subst hba
      simp only [determine_source_url, List.head?_cons, hc, hres, hpos, if_true]

/-- C2 witness: the amended theorem applied at a concrete one-cell row. -/
theorem C2_url_classifier_amended_witness :
    determine_source_url [bachListCell] "https://en.wikipedia.org/wiki/X"
      "https://en.wikipedia.org" =
      "https://en.wikipedia.org/wiki/List_of_compositions_by_Bach" :=
  C2_url_classifier_amended [bachListCell] "https://en.wikipedia.org/wiki/X"
    { href := "/wiki/List_of_compositions_by_Bach", titleAttr := none,
      text := "List of compositions by Johann Sebastian Bach" }
    (by decide) rfl

/-- C3: for every free-text input whose parenthesised year expression is
`"c. 1600-1650"`, the year parser returns approximate = true, start year
1600, end year 1650 (and flourished = false). -/
theorem C3_year_parser_c_range (t : String)
    (h : parenContent t = some "c. 1600-1650") :
    extract_years_from_parentheses t =
      some { birth_year := some 1600, death_year := some 1650,
             approximate := true, flourished := false } := by
  unfold extract_years_from_parentheses
  rw [h]
  decide

/-- C3 witness: the theorem applied at the input `"(c. 1600-1650)"`. -/
theorem C3_year_parser_c_range_witness :
    extract_years_from_parentheses "(c. 1600-1650)" =
      some { birth_year := some 1600, death_year := some 1650,
             approximate := true, flourished := false } :=
  C3_year_parser_c_range "(c. 1600-1650)" (by decide)

/-- C4: canonicalization is a pure, deterministic function of the raw
record.  The only environment dependence in the source is the arbitrary
iteration order of the `field_mappings` hash map (works.rs:478); for any
two iteration orders (any two permutations of the entry list), the
resulting compositions are field-for-field identical, so canonicalizing
the same record twice yields identical results. -/
theorem C4_canonicalize_deterministic (r : RawCompositionData)
    (e₁ e₂ : List (Field × List Nat))
    (h₁ : e₁.Perm (canonFieldMappings r)) (h₂ : e₂.Perm (canonFieldMappings r)) :
    canonicalizeFrom r (runEntries r e₁) = canonicalizeFrom r (runEntries r e₂) := by
  have hnd : ((canonFieldMappings r).map Prod.fst).Nodup := canonKeys_nodup r
  have hrun : ∀ e : List (Field × List Nat), e.Perm (canonFieldMappings r) →
      runEntries r e = runEntries r (canonFieldMappings r) := by
    intro e he
    have hnde : (e.map Prod.fst).Nodup := ((he.map Prod.fst).nodup_iff).mpr hnd
    exact foldEntries_perm r he hnde (fun _ => none)
  rw [hrun e₁ h₁, hrun e₂ h₂]

/-- Raw record used to instantiate C4: two classified headers. -/
def c4Raw : RawCompositionData :=
  { composer_name := "X", composer_url := "cu", source_url := "su",
    table_index := 0, row_index := 0,
    headers := ["Year", "Title"], cell_data := ["1808", "Symphony"],
    cell_links := [none, none], raw_html_snippet := "" }

/-- C4 witness: the determinism theorem applied at a concrete record and
two concrete hash-map iteration orders. -/
theorem C4_canonicalize_deterministic_witness :
    canonicalizeFrom c4Raw
        (runEntries c4Raw [(Field.year, [0]), (Field.title, [1])]) =
      canonicalizeFrom c4Raw
        (runEntries c4Raw [(Field.title, [1]), (Field.year, [0])]) :=
  C4_canonicalize_deterministic c4Raw
    [(Field.year, [0]), (Field.title, [1])]
    [(Field.title, [1]), (Field.year, [0])]
    (by decide) (by decide)

/-- C5: the output gate for persisting a composition in a live run accepts
exactly the records whose title is non-empty and longer than 2 bytes; in
particular a title `"Op"` is rejected and a title `"Ops"` accepted. -/
theorem C5_title_gate :
    (∀ c : Composition,
      liveGate c = true ↔ (c.title ≠ "" ∧ 2 < c.title.utf8ByteSize)) ∧
    (∀ c : Composition, c.title = "Op" → liveGate c = false) ∧
    (∀ c : Composition, c.title = "Ops" → liveGate c = true) := by
  refine ⟨fun c => ?_, fun c h => ?_, fun c h => ?_⟩
  · show (!c.title.isEmpty && decide (2 < c.title.utf8ByteSize)) = true ↔ _
    rw [Bool.and_eq_true, Bool.not_eq_true', decide_eq_true_eq]
    constructor
    · intro hand
      exact ⟨fun he => by rw [he] at hand; exact absurd hand.1 (by decide), hand.2⟩
    · intro hand
      refine ⟨?_, hand.2⟩
      cases he : c.title.isEmpty
      · rfl
      · exact absurd ((String.isEmpty_iff c.title).mp he) hand.1
  · show (!c.title.isEmpty && decide (2 < c.title.utf8ByteSize)) = false
    rw [h]
    decide
  · show (!c.title.isEmpty && decide (2 < c.title.utf8ByteSize)) = true
    rw [h]
    decide

/-- A composition literal with a given title, for instantiating gate
theorems. -/
def mkTitled (t : String) : Composition :=
  { composer_name := "X", composer_url := "cu", source_url := "su",
    title := t, work_url := none, year := none, key := none, opus := none,
    genre := none, catalog_number := none, instrumentation := none,
    duration := none, additional_info := fun _ => none, raw_data := opRaw }

/-- C5 witness: the gate theorem applied at titles `"Op"` and `"Ops"`. -/
theorem C5_title_gate_witness :
    liveGate (mkTitled "Op") = false ∧ liveGate (mkTitled "Ops") = true :=
  ⟨C5_title_gate.2.1 (mkTitled "Op") rfl, C5_title_gate.2.2 (mkTitled "Ops") rfl⟩

/-- C6: a composer list entry with a matching anchor whose text yields no
parseable year information still produces a Composer with absent birth
and death years and qualifier AliveToday (composers.rs:262-276); and in
general every parsed entry that is neither approximate nor flourished and
lacks a death year is classified AliveToday (composers.rs:240-248) — the
code maps "year unknown" and "still living" to the same qualifier. -/
theorem C6_alive_today_fallback :
    (∀ (li : LiElement) (a : Anchor) (title : String),
      (li.anchors.filter anchorMatches).head? = some a →
      a.titleAttr = some title →
      a.text = title →
      extract_years_from_parentheses li.text = none →
      parseLi li = some
        { url := a.href, full_name := title,
          list_of_compositions_url := mkListOfCompositionsUrl title,
          birth_year := none, death_year := none,
          years_qualifier := QualityOfYearInfo.AliveToday }) ∧
    (∀ yi : ParsedYears,
      yi.approximate = false → yi.flourished = false → yi.death_year = none →
      qualifierOf yi = QualityOfYearInfo.AliveToday) := by
  constructor
  · intro li a title hhead htitle htext hyears
    unfold parseLi
    simp only [hhead, htitle, htext, if_true, hyears]
  · intro yi ha hf hd
    unfold qualifierOf
    rw [ha, hf, hd]
    rfl

/-- Entry used to instantiate C6: anchor matching, no year text. -/
def c6Li : LiElement :=
  { anchors := [{ href := "/wiki/John_Doe", titleAttr := some "John Doe",
                  text := "John Doe" }],
    text := "John Doe (unknown)" }

/-- C6 witness: the theorem applied at a concrete entry with no parseable
years and at a concrete `ParsedYears` lacking a death year. -/
theorem C6_alive_today_fallback_witness :
    parseLi c6Li = some
      { url := "/wiki/John_Doe", full_name := "John Doe",
        list_of_compositions_url := "/wiki/List_of_compositions_by_John_Doe",
        birth_year := none, death_year := none,
        years_qualifier := QualityOfYearInfo.AliveToday } ∧
    qualifierOf { birth_year := some 1980, death_year := none,
                  approximate := false, flourished := false } =
      QualityOfYearInfo.AliveToday := by
  constructor
  · have h := C6_alive_today_fallback.1 c6Li
      { href := "/wiki/John_Doe", titleAttr := some "John Doe", text := "John Doe" }
      "John Doe" (by decide) rfl rfl (by decide)
    rw [h]
    decide
  · exact C6_alive_today_fallback.2
      { birth_year := some 1980, death_year := none,
        approximate := false, flourished := false } rfl rfl rfl

/-- C7: canonicalization tolerates header/cell length mismatch.  The model
of `canonicalize_raw_data` is total, every cell access is guarded
(works.rs:480, works.rs:482, and the header/cell zip at works.rs:561-566),
and headers beyond the cell count contribute nothing: truncating the
header list to the cell count changes no field of the output except the
embedded raw record itself.  Cells beyond the header count are ignored
for field classification, which ranges over headers only. -/
theorem C7_headers_cells_mismatch (r : RawCompositionData) :
    canonicalize_raw_data (truncHeaders r) =
      { canonicalize_raw_data r with raw_data := truncHeaders r } := by
  unfold canonicalize_raw_data canonicalizeFrom
  rw [show runEntries (truncHeaders r) (canonFieldMappings (truncHeaders r)) =
      runEntries r (canonFieldMappings r) from funext (runCanon_trunc r)]
  rw [additionalInfo_trunc]
  rfl

/-- A true `isPrefixOf` test decomposes the longer list. -/
theorem isPrefixOf_decomp :
    ∀ (p l : List Char), p.isPrefixOf l = true → ∃ rest, l = p ++ rest := by
  intro p
  induction p with
  | nil => intro l _; exact ⟨l, rfl⟩
  | cons c t ih =>
    intro l h
    cases l with
    | nil => simp [List.isPrefixOf] at h
    | cons c₂ t₂ =>
      simp only [List.isPrefixOf, Bool.and_eq_true, beq_iff_eq] at h
      obtain ⟨rest, hrest⟩ := ih t₂ h.2
      exact ⟨rest, by rw [h.1, hrest]; rfl⟩

/-- On text whose normalized parenthesised slice starts with `"born "`,
the parser takes the `born` branch (composers.rs:160-168). -/
theorem parseParenYears_born (s : String) (rest : List Char)
    (h : normalizeYears s = "born ".toList ++ rest) :
    parseParenYears s =
      (parseI32 (trimChars rest)).map
        (fun y => { birth_year := some y, death_year := none,
                    approximate := false, flourished := false }) := by
  unfold parseParenYears
  rw [h]
  have h5 : startsWithL "born " ('b' :: 'o' :: 'r' :: 'n' :: ' ' ::rest) = true := by
    show (['b','o','r','n',' '].isPrefixOf ('b' :: 'o' :: 'r' :: 'n' :: ' ' ::rest)) = true
    simp [List.isPrefixOf]
  simp [show startsWithL "c." ('b' :: 'o' :: 'r' :: 'n' :: ' ' ::rest) = false from rfl,
    show startsWithL "c " ('b' :: 'o' :: 'r' :: 'n' :: ' ' ::rest) = false from rfl,
    show startsWithL "fl." ('b' :: 'o' :: 'r' :: 'n' :: ' ' ::rest) = false from rfl,
    show startsWithL "fl " ('b' :: 'o' :: 'r' :: 'n' :: ' ' ::rest) = false from rfl,
    h5]

/-- C8: the year parser is total and all-or-nothing: on text with no
parenthesised year expression (such as `"unknown"`) it returns none, and
whenever the classified `born` branch is taken and its numeric token
fails integer parsing, the whole function returns none rather than a
partial result. -/
theorem C8_year_parser_total :
    extract_years_from_parentheses "unknown" = none ∧
    (∀ t : String, parenContent t = none → extract_years_from_parentheses t = none) ∧
    (∀ (t s : String) (rest : List Char), parenContent t = some s →
      normalizeYears s = "born ".toList ++ rest →
      parseI32 (trimChars rest) = none →
      extract_years_from_parentheses t = none) := by
  refine ⟨by decide, fun t h => ?_, fun t s rest hps hborn hfail => ?_⟩
  · unfold extract_years_from_parentheses
    rw [h]
    rfl
  · unfold extract_years_from_parentheses
    rw [hps]
    show parseParenYears s = none
    rw [parseParenYears_born s rest hborn, hfail]
    rfl

/-- C8 witness: the totality theorem applied at `"unknown"` (no
parentheses), at `"no parens here"`, and at `"(born sometime)"`, whose
`born` remainder fails integer parsing. -/
theorem C8_year_parser_total_witness :
    extract_years_from_parentheses "unknown" = none ∧
    extract_years_from_parentheses "no parens here" = none ∧
    extract_years_from_parentheses "(born sometime)" = none :=
  ⟨C8_year_parser_total.1,
   C8_year_parser_total.2.1 "no parens here" (by decide),
   C8_year_parser_total.2.2 "(born sometime)" "born sometime" "sometime".toList
     (by decide) (by decide) (by decide)⟩

/-- C9: every raw record emitted by the harvester has cell-text and
cell-link lists of the same length — both are images of the same cell
list under `map` (works.rs:295-315). -/
theorem C9_cell_alignment (t : HtmlTable) (cn cu pu : String) (ti : Nat)
    (raw : RawCompositionData) (hmem : raw ∈ extract_raw_table_data t cn cu pu ti) :
    raw.cell_data.length = raw.cell_links.length := by
  simp only [extract_raw_table_data] at hmem
  exact harvest_fold_aligned cn cu pu "https://en.wikipedia.org" ti _ t.rows ([], 0)
    (fun x hx => absurd hx (List.not_mem_nil x)) raw hmem

/-- Table used to instantiate C9: one header row, one two-cell data row. -/
def c9Table : HtmlTable :=
  { rows :=
      [{ header_cells := [{ text := "Title", anchors := [], html := "" }],
         data_cells := [] },
       { header_cells := [],
         data_cells := [{ text := "Sym", anchors := [], html := "" },
                        { text := "1808", anchors := [], html := "" }] }] }

/-- The record the harvester produces from `c9Table`. -/
def c9Raw : RawCompositionData :=
  { composer_name := "X", composer_url := "cu", source_url := "pu",
    table_index := 0, row_index := 0,
    headers := ["Title"], cell_data := ["Sym", "1808"],
    cell_links := [none, none], raw_html_snippet := "<tr></tr>" }

/-- C9 witness: the alignment theorem applied at a concrete table. -/
theorem C9_cell_alignment_witness : c9Raw.cell_data.length = c9Raw.cell_links.length :=
  C9_cell_alignment c9Table "X" "cu" "pu" 0 c9Raw (by decide)

/-- C10: when several unclassified columns share the same header string,
the unmapped-field mapping retains only the value of the last such column
with a non-empty cell: the looked-up value under any key equals the value
of the last zipped (header, cell) pair whose header string is that key,
is unclassified, and has a non-empty cell — later hash-map insertions
overwrite earlier ones (works.rs:561-573), unlike the first-match-wins
rule of the typed fields. -/
theorem C10_additional_info_last_wins (r : RawCompositionData) (h : String) :
    (canonicalize_raw_data r).additional_info h =
      (match (r.headers.zip r.cell_data).reverse.find? (unmappedPred h) with
       | some p => some p.2
       | none => none) := by
  show additionalInfo r h = _
  rw [show additionalInfo r h =
      ((r.headers.zip r.cell_data).foldl addInfoStep (fun _ => none)) h from rfl]
  rw [addInfo_foldl h (r.headers.zip r.cell_data) (fun _ => none)]

end CM
